import Mathlib

/- Shallow embedding of shared/utils.py from the Lebouse/telegra repository:
   calendar arithmetic, recurrence resolution (next_recurrence_time,
   find_next_weekday, find_next_monthly_day), task fingerprinting
   (generate_task_hash, MD5), user date-time parsing (parse_user_datetime)
   and MarkdownV2 escaping (escape_markdown_v2).  Python datetimes are
   modelled at minute granularity as (year, month, day, hour, minute) with
   the CPython validity range MINYEAR = 1 .. MAXYEAR = 9999; Python integers
   are Int, day lists are List Int, exceptions are Except. -/

/-- Leap-year rule as written in days_in_month of shared/utils.py. -/
def isLeapYear (y : Nat) : Bool := (y % 4 == 0 && y % 100 != 0) || y % 400 == 0

/-- days_in_month from shared/utils.py (month indexed 1..12). -/
def days_in_month (y m : Nat) : Nat :=
  if m = 2 then (if isLeapYear y then 29 else 28)
  else ([31, 28, 31, 30, 31, 30, 31, 31, 30, 31, 30, 31].getD (m - 1) 0)

/-- A calendar date as held by a Python datetime.date. -/
structure Date where
  year : Nat
  month : Nat
  day : Nat
deriving DecidableEq, Repr

/-- A Python naive datetime, at minute granularity. -/
structure PyDateTime where
  date : Date
  hour : Nat
  minute : Nat
deriving DecidableEq, Repr

/-- The validity check CPython's datetime constructor performs
    (MINYEAR = 1, MAXYEAR = 9999, day bounded by the month length). -/
def isValidDate (y m d : Nat) : Prop :=
  1 ≤ y ∧ y ≤ 9999 ∧ 1 ≤ m ∧ m ≤ 12 ∧ 1 ≤ d ∧ d ≤ days_in_month y m

instance (y m d : Nat) : Decidable (isValidDate y m d) := by
  unfold isValidDate; infer_instance

/-- Days in the months strictly before month m of year y
    (0 for m = 0 or m = 1, as in CPython's _days_before_month). -/
def daysBeforeMonth (y : Nat) : Nat → Nat
  | 0 => 0
  | 1 => 0
  | m + 2 => daysBeforeMonth y (m + 1) + days_in_month y (m + 1)

/-- Days in the years strictly before year y (CPython's _days_before_year). -/
def daysBeforeYear (y : Nat) : Nat :=
  365 * (y - 1) + (y - 1) / 4 - (y - 1) / 100 + (y - 1) / 400

/-- Proleptic-Gregorian ordinal of a date, as date.toordinal():
    0001-01-01 has ordinal 1. -/
def toOrdinal (d : Date) : Nat :=
  daysBeforeYear d.year + daysBeforeMonth d.year d.month + d.day

/-- date.max.toordinal() in CPython: the ordinal of 9999-12-31. -/
def maxOrdinal : Nat := 3652059

/-- date.weekday(): Monday = 0 .. Sunday = 6. -/
def weekday (d : Date) : Nat := (toOrdinal d + 6) % 7

/-- Total minutes of a datetime since the epoch of ordinal 0; used to state
    ordering and distance between datetimes. -/
def toMinutes (t : PyDateTime) : Nat :=
  toOrdinal t.date * 1440 + t.hour * 60 + t.minute

/-- Successor date (the effect of adding one day to a valid date). -/
def nextDate (d : Date) : Date :=
  if d.day < days_in_month d.year d.month then ⟨d.year, d.month, d.day + 1⟩
  else if d.month < 12 then ⟨d.year, d.month + 1, 1⟩
  else ⟨d.year + 1, 1, 1⟩

/-- Predecessor date (the effect of subtracting one day from a valid date). -/
def prevDate (d : Date) : Date :=
  if 1 < d.day then ⟨d.year, d.month, d.day - 1⟩
  else if 1 < d.month then ⟨d.year, d.month - 1, days_in_month d.year (d.month - 1)⟩
  else ⟨d.year - 1, 12, 31⟩

/-- Adding one minute to a datetime. -/
def nextMinute (t : PyDateTime) : PyDateTime :=
  if t.minute < 59 then ⟨t.date, t.hour, t.minute + 1⟩
  else if t.hour < 23 then ⟨t.date, t.hour + 1, 0⟩
  else ⟨nextDate t.date, 0, 0⟩

/-- Subtracting one minute from a datetime. -/
def prevMinute (t : PyDateTime) : PyDateTime :=
  if 0 < t.minute then ⟨t.date, t.hour, t.minute - 1⟩
  else if 0 < t.hour then ⟨t.date, t.hour - 1, 59⟩
  else ⟨prevDate t.date, 23, 59⟩

/-- Shifting a datetime by a signed number of minutes; models a fixed-offset
    timezone conversion on naive datetimes. -/
def shiftMinutes (z : Int) (t : PyDateTime) : PyDateTime :=
  if 0 ≤ z then nextMinute^[z.toNat] t else prevMinute^[(-z).toNat] t

/-- Python date + timedelta(days = n): ordinal arithmetic that raises
    OverflowError past date.max (modelled as Except.error). -/
def pyAddDate (d : Date) (n : Nat) : Except Unit Date :=
  if toOrdinal d + n ≤ maxOrdinal then .ok (nextDate^[n] d) else .error ()

/-- Python datetime + timedelta(days = n): the date moves, time is kept. -/
def pyAddDays (t : PyDateTime) (n : Nat) : Except Unit PyDateTime :=
  (pyAddDate t.date n).map fun d => ⟨d, t.hour, t.minute⟩

/-- datetime.replace(year = y, month = m, day = d): validates the new date
    and keeps the time; ValueError is modelled as none. -/
def tryReplace (y m d : Nat) (hour minute : Nat) : Option PyDateTime :=
  if isValidDate y m d then some ⟨⟨y, m, d⟩, hour, minute⟩ else none

/-- Insertion into a sorted list of integers (ascending). -/
def insort (x : Int) : List Int → List Int
  | [] => [x]
  | y :: l => if x ≤ y then x :: y :: l else y :: insort x l

/-- Python sorted() on a list of integers. -/
def sortInts (l : List Int) : List Int := l.foldr insort []

/-- The first loop of find_next_monthly_day: for d in valid_days, if
    d > current.day try current.replace(day = d), skipping ValueError. -/
def scanCurrentMonth (t : PyDateTime) : List Int → Option PyDateTime
  | [] => none
  | d :: rest =>
    if (t.date.day : Int) < d then
      match tryReplace t.date.year t.date.month d.toNat t.hour t.minute with
      | some r => some r
      | none => scanCurrentMonth t rest
    else scanCurrentMonth t rest

/-- The second loop of find_next_monthly_day: for d in valid_days, try
    current.replace(year = ny, month = nm, day = d), skipping ValueError. -/
def scanNextMonth (ny nm : Nat) (t : PyDateTime) : List Int → Option PyDateTime
  | [] => none
  | d :: rest =>
    match tryReplace ny nm d.toNat t.hour t.minute with
    | some r => some r
    | none => scanNextMonth ny nm t rest

/-- The filtered, sorted, defaulted day list computed by
    find_next_monthly_day from its days argument. -/
def validDaysOf (days : List Int) : List Int :=
  let v := sortInts (days.filter fun d => 1 ≤ d && d ≤ 31)
  if v = [] then [1] else v

/-- find_next_monthly_day from shared/utils.py.  The final fallback
    current.replace(year, month, day = 1) sits outside any try/except, so a
    ValueError there (year past 9999) escapes: modelled as Except.error. -/
def find_next_monthly_day (current : PyDateTime) (days : List Int) :
    Except Unit PyDateTime :=
  let vd := validDaysOf days
  match scanCurrentMonth current vd with
  | some r => .ok r
  | none =>
    let ny := if current.date.month + 1 > 12 then current.date.year + 1 else current.date.year
    let nm := if current.date.month + 1 > 12 then 1 else current.date.month + 1
    match scanNextMonth ny nm current vd with
    | some r => .ok r
    | none =>
      match tryReplace ny nm 1 current.hour current.minute with
      | some r => .ok r
      | none => .error ()

/-- The loop body of find_next_weekday: candidate i, then i+1, ...; after
    `remaining` candidates are exhausted, fall back to
    current + timedelta(weeks = 1). -/
def fnwGo (current : PyDateTime) (days : List Int) : Nat → Nat → Except Unit PyDateTime
  | _, 0 => pyAddDays current 7
  | i, remaining + 1 =>
    match pyAddDate current.date i with
    | .error e => .error e
    | .ok cd =>
      if (weekday cd : Int) ∈ days then .ok ⟨cd, current.hour, current.minute⟩
      else fnwGo current days (i + 1) remaining

/-- find_next_weekday from shared/utils.py: scans current.date() + i for
    i in range(1, 8) for a weekday in days, preserving the time of day. -/
def find_next_weekday (current : PyDateTime) (days : List Int) :
    Except Unit PyDateTime :=
  fnwGo current days 1 7

/-- next_recurrence_time from shared/utils.py.  Python's optional list
    arguments are List Int with None mapped to []; only their truthiness is
    ever used, so this is faithful.  The result distinguishes an exception
    (.error) from a normal return (.ok none for termination). -/
def next_recurrence_time (original : PyDateTime) (recurrence : String)
    (last : PyDateTime) (weekly_days monthly_days : List Int) :
    Except Unit (Option PyDateTime) :=
  if recurrence = "once" then .ok none
  else if recurrence = "daily" then (pyAddDays last 1).map some
  else if recurrence = "weekly" then
    let wd := if weekly_days = [] then [0] else weekly_days
    (find_next_weekday last wd).map some
  else if recurrence = "monthly" then
    let md := if monthly_days = [] then [1] else monthly_days
    (find_next_monthly_day last md).map some
  else .ok none

/-- Modelled from the spec (section 4.4, monthly case): the claimed pipeline
    that converts lastFiredUtc to the configured local zone (a fixed offset
    of `offs` minutes), runs the monthly day scan on the local value, and
    converts the chosen local date-time back to UTC.  The scan itself is the
    agreed two-pass scan of find_next_monthly_day; only the conversion
    envelope is in dispute. -/
def specMonthlyLocalScan (offs : Int) (lastFiredUtc : PyDateTime)
    (monthlyDays : List Int) : Except Unit PyDateTime :=
  let localLast := shiftMinutes offs lastFiredUtc
  let md := if monthlyDays = [] then [1] else monthlyDays
  (find_next_monthly_day localLast md).map (shiftMinutes (-offs))

/-- A Date that CPython's datetime would accept. -/
def Date.valid (d : Date) : Prop := isValidDate d.year d.month d.day

instance (d : Date) : Decidable d.valid := by unfold Date.valid; infer_instance

/-- The ASCII characters matched by Python's regex class \s
    (space, tab, newline, carriage return, vertical tab, form feed). -/
def pyIsSpace (c : Char) : Bool :=
  c == ' ' || c == '\t' || c == '\n' || c == '\r' ||
    c == Char.ofNat 11 || c == Char.ofNat 12

/-- The ASCII characters matched by Python's regex class \d. -/
def pyIsDigit (c : Char) : Bool := 48 ≤ c.toNat && c.toNat ≤ 57

/-- Python str.strip(): remove leading and trailing whitespace. -/
def pyStrip (l : List Char) : List Char :=
  ((l.dropWhile pyIsSpace).reverse.dropWhile pyIsSpace).reverse

/-- Numeric value of an ASCII digit. -/
def digitVal (c : Char) : Nat := c.toNat - 48

/-- Regex step: two digits, returning their value and the rest. -/
def take2Digits : List Char → Option (Nat × List Char)
  | a :: b :: rest =>
    if pyIsDigit a && pyIsDigit b then some (10 * digitVal a + digitVal b, rest)
    else none
  | _ => none

/-- Regex step: four digits, returning their value and the rest. -/
def take4Digits : List Char → Option (Nat × List Char)
  | a :: b :: c :: d :: rest =>
    if pyIsDigit a && pyIsDigit b && pyIsDigit c && pyIsDigit d then
      some (1000 * digitVal a + 100 * digitVal b + 10 * digitVal c + digitVal d, rest)
    else none
  | _ => none

/-- Regex step: one fixed literal character. -/
def expectChar (c : Char) : List Char → Option (List Char)
  | a :: rest => if a = c then some rest else none
  | _ => none

/-- Regex step for \s+: at least one whitespace character, consumed greedily. -/
def takeWs1 (l : List Char) : Option (List Char) :=
  let ws := l.takeWhile pyIsSpace
  if ws = [] then none else some (l.drop ws.length)

/-- re.match of the pattern (dd).(dd).(dddd)\s+(dd):(dd) from
    parse_user_datetime: an anchored prefix match returning the five
    captured numbers (day, month, year, hour, minute), or none. -/
def pyMatch (l : List Char) : Option (Nat × Nat × Nat × Nat × Nat) :=
  match take2Digits l with
  | none => none
  | some (d, r1) =>
    match expectChar '.' r1 with
    | none => none
    | some r2 =>
      match take2Digits r2 with
      | none => none
      | some (m, r3) =>
        match expectChar '.' r3 with
        | none => none
        | some r4 =>
          match take4Digits r4 with
          | none => none
          | some (y, r5) =>
            match takeWs1 r5 with
            | none => none
            | some r6 =>
              match take2Digits r6 with
              | none => none
              | some (h, r7) =>
                match expectChar ':' r7 with
                | none => none
                | some r8 =>
                  match take2Digits r8 with
                  | none => none
                  | some (mi, _) => some (d, m, y, h, mi)

/-- The two error kinds of parse_user_datetime: the explicit ValueError for
    a failed regex match (spec: FormatError) and the ValueError raised by
    the datetime constructor on an out-of-range date (spec: CalendarError). -/
inductive ParseErr where
  | format
  | calendar
deriving DecidableEq, Repr

/-- parse_user_datetime from shared/utils.py, for a configured fixed-offset
    local zone of offs minutes east of UTC.  Returns the pair
    (naive_local, utc_naive). -/
def parse_user_datetime (offs : Int) (s : List Char) :
    Except ParseErr (PyDateTime × PyDateTime) :=
  match pyMatch (pyStrip s) with
  | none => .error .format
  | some (d, m, y, h, mi) =>
    if isValidDate y m d ∧ h ≤ 23 ∧ mi ≤ 59 then
      .ok (⟨⟨y, m, d⟩, h, mi⟩, shiftMinutes (-offs) ⟨⟨y, m, d⟩, h, mi⟩)
    else .error .calendar

/-- The structural description of the strings accepted by the code's
    anchored, prefix-only pattern: two digits, a dot, two digits, a dot,
    four digits, one or more whitespace characters, two digits, a colon,
    two digits — followed by anything at all. -/
def DateTimePrefixShape (l : List Char) : Prop :=
  ∃ (d1 d2 m1 m2 y1 y2 y3 y4 h1 h2 mi1 mi2 : Char) (ws rest : List Char),
    l = [d1, d2, '.', m1, m2, '.', y1, y2, y3, y4] ++ ws ++
        [h1, h2, ':', mi1, mi2] ++ rest ∧
    (∀ c ∈ [d1, d2, m1, m2, y1, y2, y3, y4, h1, h2, mi1, mi2], pyIsDigit c = true) ∧
    ws ≠ [] ∧ (∀ c ∈ ws, pyIsSpace c = true)

/-- The MarkdownV2 reserved characters escaped by escape_markdown_v2's
    re.sub character class (backtick and braces written by code point). -/
def reservedChars : List Char :=
  ['_', '*', '[', ']', '(', ')', '~', Char.ofNat 96, '>', '#', '+', '-', '=',
   '|', Char.ofNat 123, Char.ofNat 125, '.', '!']

/-- The escaping pass: every reserved character is prefixed with a
    backslash. -/
def escapeChars (l : List Char) : List Char :=
  l.foldr (fun c acc => if c ∈ reservedChars then '\\' :: c :: acc else c :: acc) []

/-- The placeholder written for match number n of a markup kind, as the
    Python f-string builds it: two underscores, the kind name, the decimal
    index, two underscores. -/
def markerChars (mark : List Char) (n : Nat) : List Char :=
  '_' :: '_' :: mark ++ (Nat.repr n).data ++ ['_', '_']

/-- One pass of re.sub(delim([^delim]+)delim, save, s): finds the leftmost
    non-overlapping delimiter-wrapped spans, replaces each with its
    placeholder, and appends the matched spans to the accumulator ms.
    A lone delimiter with no non-empty span before the next delimiter is an
    ordinary character.  Returns the rewritten text and the match list. -/
def saveSpansGo (delim : Char) (mark : List Char) :
    Nat → List Char → List (List Char) → List Char × List (List Char)
  | 0, s, ms => (s, ms)
  | _ + 1, [], ms => ([], ms)
  | fuel + 1, c :: rest, ms =>
    if c = delim then
      let run := rest.takeWhile (fun x => !(x == delim))
      let after := rest.drop run.length
      if run ≠ [] ∧ after ≠ [] then
        let res := saveSpansGo delim mark fuel after.tail (ms ++ [c :: run ++ [delim]])
        (markerChars mark ms.length ++ res.1, res.2)
      else
        let res := saveSpansGo delim mark fuel rest ms
        (c :: res.1, res.2)
    else
      let res := saveSpansGo delim mark fuel rest ms
      (c :: res.1, res.2)

/-- The re.sub pass over a whole string; each recursion step consumes at
    least one character, so fuel equal to the length never runs out. -/
def saveSpans (delim : Char) (mark : List Char) (s : List Char)
    (ms : List (List Char)) : List Char × List (List Char) :=
  saveSpansGo delim mark s.length s ms

/-- Whether pat is an initial segment of the second list. -/
def startsWithList : List Char → List Char → Bool
  | [], _ => true
  | _ :: _, [] => false
  | p :: ps, c :: cs => p == c && startsWithList ps cs

/-- Python str.replace(pat, sub): replace every non-overlapping occurrence,
    scanning left to right. -/
def replaceAllGo (pat sub : List Char) : Nat → List Char → List Char
  | 0, s => s
  | _ + 1, [] => []
  | fuel + 1, c :: rest =>
    if pat ≠ [] ∧ startsWithList pat (c :: rest) then
      sub ++ replaceAllGo pat sub fuel ((c :: rest).drop pat.length)
    else
      c :: replaceAllGo pat sub fuel rest

/-- Python str.replace over a whole string; each step consumes at least one
    character (the pattern is non-empty on the replacing branch), so fuel
    equal to the length never runs out. -/
def replaceAll (pat sub : List Char) (s : List Char) : List Char :=
  replaceAllGo pat sub s.length s

/-- The restore loop: for i, match in enumerate(ms):
    s = s.replace(marker(i), match). -/
def restoreGo (mark : List Char) : Nat → List (List Char) → List Char → List Char
  | _, [], s => s
  | i, msp :: rest, s =>
    restoreGo mark (i + 1) rest (replaceAll (markerChars mark i) msp s)

/-- escape_markdown_v2 from shared/utils.py: protect *bold*, _italic_ and
    backtick-code spans behind placeholders, escape every reserved
    character, then substitute the placeholders back. -/
def escape_markdown_v2 (text : List Char) : List Char :=
  if text = [] then text
  else
    let b := saveSpans '*' ("BOLD").data text []
    let i := saveSpans '_' ("ITALIC").data b.1 []
    let k := saveSpans (Char.ofNat 96) ("CODE").data i.1 []
    let esc := escapeChars k.1
    let r1 := restoreGo ("BOLD").data 0 b.2 esc
    let r2 := restoreGo ("ITALIC").data 0 i.2 r1
    restoreGo ("CODE").data 0 k.2 r2

/-- The 64 MD5 sine-derived constants (RFC 1321), in order. -/
def md5K : List Nat :=
  [0xd76aa478, 0xe8c7b756, 0x242070db, 0xc1bdceee,
   0xf57c0faf, 0x4787c62a, 0xa8304613, 0xfd469501,
   0x698098d8, 0x8b44f7af, 0xffff5bb1, 0x895cd7be,
   0x6b901122, 0xfd987193, 0xa679438e, 0x49b40821,
   0xf61e2562, 0xc040b340, 0x265e5a51, 0xe9b6c7aa,
   0xd62f105d, 0x02441453, 0xd8a1e681, 0xe7d3fbc8,
   0x21e1cde6, 0xc33707d6, 0xf4d50d87, 0x455a14ed,
   0xa9e3e905, 0xfcefa3f8, 0x676f02d9, 0x8d2a4c8a,
   0xfffa3942, 0x8771f681, 0x6d9d6122, 0xfde5380c,
   0xa4beea44, 0x4bdecfa9, 0xf6bb4b60, 0xbebfbc70,
   0x289b7ec6, 0xeaa127fa, 0xd4ef3085, 0x04881d05,
   0xd9d4d039, 0xe6db99e5, 0x1fa27cf8, 0xc4ac5665,
   0xf4292244, 0x432aff97, 0xab9423a7, 0xfc93a039,
   0x655b59c3, 0x8f0ccc92, 0xffeff47d, 0x85845dd1,
   0x6fa87e4f, 0xfe2ce6e0, 0xa3014314, 0x4e0811a1,
   0xf7537e82, 0xbd3af235, 0x2ad7d2bb, 0xeb86d391]

/-- The 64 MD5 per-round left-rotation amounts (RFC 1321). -/
def md5S : List Nat :=
  [7, 12, 17, 22, 7, 12, 17, 22, 7, 12, 17, 22, 7, 12, 17, 22,
   5, 9, 14, 20, 5, 9, 14, 20, 5, 9, 14, 20, 5, 9, 14, 20,
   4, 11, 16, 23, 4, 11, 16, 23, 4, 11, 16, 23, 4, 11, 16, 23,
   6, 10, 15, 21, 6, 10, 15, 21, 6, 10, 15, 21, 6, 10, 15, 21]

/-- 32-bit left rotation on a Nat below 2^32. -/
def rotl32 (x n : Nat) : Nat :=
  (x * 2 ^ n + x / 2 ^ (32 - n)) % 4294967296

/-- One MD5 step: state (a, b, c, d), message words, step index i. -/
def md5Round (msg : List Nat) (st : Nat × Nat × Nat × Nat) (i : Nat) :
    Nat × Nat × Nat × Nat :=
  let a := st.1
  let b := st.2.1
  let c := st.2.2.1
  let d := st.2.2.2
  let f :=
    if i < 16 then (b &&& c) ||| ((4294967295 ^^^ b) &&& d)
    else if i < 32 then (d &&& b) ||| ((4294967295 ^^^ d) &&& c)
    else if i < 48 then b ^^^ c ^^^ d
    else c ^^^ (b ||| (4294967295 ^^^ d))
  let g :=
    if i < 16 then i
    else if i < 32 then (5 * i + 1) % 16
    else if i < 48 then (3 * i + 5) % 16
    else (7 * i) % 16
  let fv := (f + a + md5K.getD i 0 + msg.getD g 0) % 4294967296
  (d, (b + rotl32 fv (md5S.getD i 0)) % 4294967296, b, c)

/-- Reassemble little-endian bytes into 32-bit words. -/
def bytesToWords : List Nat → List Nat
  | b0 :: b1 :: b2 :: b3 :: rest =>
    (b0 + 256 * b1 + 65536 * b2 + 16777216 * b3) :: bytesToWords rest
  | _ => []

/-- Process one 64-byte chunk: 64 rounds, then add into the running state. -/
def md5Chunk (st : Nat × Nat × Nat × Nat) (words : List Nat) :
    Nat × Nat × Nat × Nat :=
  let r := (List.range 64).foldl (md5Round words) st
  ((st.1 + r.1) % 4294967296, (st.2.1 + r.2.1) % 4294967296,
   (st.2.2.1 + r.2.2.1) % 4294967296, (st.2.2.2 + r.2.2.2) % 4294967296)

/-- Fold the chunk function over a padded message, 64 bytes at a time.
    Structural recursion on a fuel argument that the wrapper sets to the
    byte count; each step consumes at least one byte, so the fuel never
    runs out. -/
def md5ChunksGo : Nat → Nat × Nat × Nat × Nat → List Nat → Nat × Nat × Nat × Nat
  | 0, st, _ => st
  | _ + 1, st, [] => st
  | fuel + 1, st, b :: rest =>
    md5ChunksGo fuel (md5Chunk st (bytesToWords ((b :: rest).take 64))) ((b :: rest).drop 64)

/-- Fold the chunk function over the whole padded message. -/
def md5Chunks (st : Nat × Nat × Nat × Nat) (bytes : List Nat) :
    Nat × Nat × Nat × Nat :=
  md5ChunksGo bytes.length st bytes

/-- A 64-bit length rendered as 8 little-endian bytes. -/
def le8 (n : Nat) : List Nat :=
  [n % 256, n / 256 % 256, n / 65536 % 256, n / 16777216 % 256,
   n / 4294967296 % 256, n / 1099511627776 % 256,
   n / 281474976710656 % 256, n / 72057594037927936 % 256]

/-- MD5 padding: 0x80, zeros to 56 mod 64, the bit length as 8 LE bytes. -/
def md5Pad (msg : List Nat) : List Nat :=
  msg ++ 128 :: (List.replicate ((119 - msg.length % 64) % 64) 0 ++ le8 (msg.length * 8))

/-- A 32-bit word as 4 little-endian bytes. -/
def wordLEBytes (w : Nat) : List Nat :=
  [w % 256, w / 256 % 256, w / 65536 % 256, w / 16777216 % 256]

/-- Lowercase hex digit. -/
def hexDigit (n : Nat) : Char := ("0123456789abcdef").data.getD n 'x'

/-- A byte as two lowercase hex characters. -/
def byteHex (b : Nat) : List Char := [hexDigit (b / 16), hexDigit (b % 16)]

/-- The 16 MD5 digest bytes of a byte string. -/
def md5Bytes (msg : List Nat) : List Nat :=
  let st := md5Chunks (1732584193, 4023233417, 2562383102, 271733878) (md5Pad msg)
  wordLEBytes st.1 ++ wordLEBytes st.2.1 ++ wordLEBytes st.2.2.1 ++ wordLEBytes st.2.2.2

/-- hashlib.md5(...).hexdigest(): the digest as 32 lowercase hex chars. -/
def md5Hex (msg : List Nat) : String :=
  String.mk ((md5Bytes msg).foldr (fun b acc => byteHex b ++ acc) [])

/-- UTF-8 encoding of one Unicode scalar value. -/
def utf8EncodeChar (c : Char) : List Nat :=
  let n := c.toNat
  if n < 128 then [n]
  else if n < 2048 then [192 + n / 64, 128 + n % 64]
  else if n < 65536 then [224 + n / 4096, 128 + n / 64 % 64, 128 + n % 64]
  else [240 + n / 262144, 128 + n / 4096 % 64, 128 + n / 64 % 64, 128 + n % 64]

/-- Python str.encode(utf-8) as a byte list. -/
def utf8Bytes (s : String) : List Nat :=
  s.data.foldr (fun c acc => utf8EncodeChar c ++ acc) []

/-- generate_task_hash from shared/utils.py: the MD5 hexdigest of the
    pipe-joined task fields, each optional field replaced by the empty
    string when absent (Python `x or ''`). -/
def generate_task_hash (chat_id : Int)
    (text photo_file_id document_file_id : Option String)
    (publish_at recurrence : String) : String :=
  md5Hex (utf8Bytes (toString chat_id ++ "|" ++ text.getD ("") ++ "|" ++
    photo_file_id.getD ("") ++ "|" ++ document_file_id.getD ("") ++ "|" ++
    publish_at ++ "|" ++ recurrence))

/-- A scheduled task record as the spec's data model describes it: the six
    hashed fields plus the recurrence day sets, which the hash interface of
    generate_task_hash never receives. -/
structure ScheduledTask where
  chat_id : Int
  text : Option String
  photo_file_id : Option String
  document_file_id : Option String
  publish_at : String
  recurrence : String
  weekly_days : List Int
  monthly_days : List Int

/-- The fingerprint of a task record: generate_task_hash applied to its six
    identity fields, exactly as the code's callers do. -/
def taskFingerprint (r : ScheduledTask) : String :=
  generate_task_hash r.chat_id r.text r.photo_file_id r.document_file_id
    r.publish_at r.recurrence

/-- Modelled from the spec (section 4.5): the pipe-delimited string
    chatId|text|photoRef|documentRef|publishAt|recurrenceKind with the
    empty string substituted for each absent optional field. -/
def pipeString (r : ScheduledTask) : String :=
  toString r.chat_id ++ "|" ++ r.text.getD ("") ++ "|" ++
    r.photo_file_id.getD ("") ++ "|" ++ r.document_file_id.getD ("") ++ "|" ++
    r.publish_at ++ "|" ++ r.recurrence

/- ------------------------------------------------------------------ -/
/- Helper lemmas -/
/- ------------------------------------------------------------------ -/

lemma isLeap_iff (y : Nat) :
    isLeapYear y = true ↔ ((y % 4 = 0 ∧ y % 100 ≠ 0) ∨ y % 400 = 0) := by
  simp [isLeapYear]

set_option maxHeartbeats 1000000 in
lemma dby_succ (y : Nat) (h : 1 ≤ y) :
    daysBeforeYear (y + 1) =
      daysBeforeYear y + 365 + (if isLeapYear y then 1 else 0) := by
  obtain ⟨n, rfl⟩ : ∃ n, y = n + 1 := ⟨y - 1, by omega⟩
  unfold daysBeforeYear
  simp only [Nat.add_sub_cancel]
  by_cases hL : isLeapYear (n + 1) = true
  · rw [if_pos hL]
    rw [isLeap_iff] at hL
    omega
  · rw [if_neg hL]
    rw [isLeap_iff] at hL
    push_neg at hL
    omega

lemma dby_mono {a b : Nat} (h : a ≤ b) : daysBeforeYear a ≤ daysBeforeYear b := by
  unfold daysBeforeYear
  have h4 : (a - 1) / 4 ≤ (b - 1) / 4 := Nat.div_le_div_right (by omega)
  have h100 : (a - 1) / 100 ≤ (b - 1) / 100 := Nat.div_le_div_right (by omega)
  have h400 : (a - 1) / 400 ≤ (b - 1) / 400 := Nat.div_le_div_right (by omega)
  have g4 : (a - 1) / 4 ≤ a - 1 := Nat.div_le_self _ _
  have g100a : (a - 1) / 100 ≤ (a - 1) / 4 :=
    Nat.div_le_div_left (by omega) (by omega)
  have g100b : (b - 1) / 100 ≤ (b - 1) / 4 :=
    Nat.div_le_div_left (by omega) (by omega)
  omega

lemma dim_pos (y m : Nat) (h1 : 1 ≤ m) (h2 : m ≤ 12) :
    1 ≤ days_in_month y m := by
  interval_cases m <;>
    first
      | exact (by omega : (1 : Nat) ≤ 31)
      | exact (by omega : (1 : Nat) ≤ 30)
      | (show (1 : Nat) ≤ if isLeapYear y then 29 else 28; split <;> omega)

lemma dbm_succ (y m : Nat) (h : 1 ≤ m) :
    daysBeforeMonth y (m + 1) = daysBeforeMonth y m + days_in_month y m := by
  obtain ⟨k, rfl⟩ : ∃ k, m = k + 1 := ⟨m - 1, by omega⟩
  rfl

lemma dbm13 (y : Nat) :
    daysBeforeMonth y 13 = 365 + (if isLeapYear y then 1 else 0) := by
  have h : daysBeforeMonth y 13 =
      31 + days_in_month y 2 + 31 + 30 + 31 + 30 + 31 + 31 + 30 + 31 + 30 + 31 := rfl
  have h2 : days_in_month y 2 = if isLeapYear y then 29 else 28 := rfl
  rw [h, h2]
  by_cases hL : isLeapYear y = true <;> simp [hL]

lemma dbm_mono (y : Nat) : ∀ {a b : Nat}, a ≤ b →
    daysBeforeMonth y a ≤ daysBeforeMonth y b := by
  intro a b h
  induction b with
  | zero =>
    have : a = 0 := Nat.le_zero.mp h
    simp [this]
  | succ n ih =>
    rcases Nat.eq_or_lt_of_le h with rfl | hlt
    · exact le_refl _
    · refine le_trans (ih (by omega)) ?_
      match n with
      | 0 => simp [daysBeforeMonth]
      | Nat.succ k =>
        have hstep : daysBeforeMonth y (k + 1 + 1) =
            daysBeforeMonth y (k + 1) + days_in_month y (k + 1) := rfl
        simp only [Nat.succ_eq_add_one]
        omega

lemma toOrdinal_mk (y m d : Nat) :
    toOrdinal ⟨y, m, d⟩ = daysBeforeYear y + daysBeforeMonth y m + d := rfl

lemma valid_parts (d : Date) (h : d.valid) :
    1 ≤ d.year ∧ d.year ≤ 9999 ∧ 1 ≤ d.month ∧ d.month ≤ 12 ∧
      1 ≤ d.day ∧ d.day ≤ days_in_month d.year d.month := h

lemma toOrdinal_nextDate (d : Date) (h : d.valid) :
    toOrdinal (nextDate d) = toOrdinal d + 1 := by
  obtain ⟨hy1, hy2, hm1, hm2, hd1, hd2⟩ := valid_parts d h
  unfold nextDate
  split_ifs with h1 h2
  · simp only [toOrdinal_mk, toOrdinal]
    omega
  · simp only [toOrdinal_mk, toOrdinal]
    have hs := dbm_succ d.year d.month hm1
    omega
  · have hm : d.month = 12 := by omega
    have e4 : days_in_month d.year 12 = 31 := rfl
    have hdd : d.day = 31 := by rw [hm] at hd2 h1; omega
    simp only [toOrdinal_mk, toOrdinal, hm, hdd]
    have e1 := dby_succ d.year hy1
    have e2 := dbm13 d.year
    have e3 : daysBeforeMonth d.year 13 =
        daysBeforeMonth d.year 12 + days_in_month d.year 12 := rfl
    have e5 : daysBeforeMonth (d.year + 1) 1 = 0 := rfl
    omega

lemma ord_99991231 : toOrdinal ⟨9999, 12, 31⟩ = 3652059 := by decide

lemma dby_9999 : daysBeforeYear 9999 = 3651694 := by decide

lemma valid_nextDate (d : Date) (h : d.valid) (hlt : toOrdinal d < maxOrdinal) :
    (nextDate d).valid := by
  obtain ⟨hy1, hy2, hm1, hm2, hd1, hd2⟩ := valid_parts d h
  unfold nextDate
  split_ifs with h1 h2
  · show isValidDate d.year d.month (d.day + 1)
    exact ⟨hy1, hy2, hm1, hm2, by omega, by omega⟩
  · show isValidDate d.year (d.month + 1) 1
    exact ⟨hy1, hy2, by omega, by omega, by omega,
      dim_pos d.year (d.month + 1) (by omega) (by omega)⟩
  · show isValidDate (d.year + 1) 1 1
    refine ⟨by omega, ?_, by omega, by omega, by omega, ?_⟩
    · by_contra hy
      have hm : d.month = 12 := by omega
      have hyy : d.year = 9999 := by omega
      have e4 : days_in_month d.year 12 = 31 := rfl
      have hdd : d.day = 31 := by rw [hm] at hd2 h1; omega
      have hd0 : toOrdinal d = toOrdinal ⟨9999, 12, 31⟩ := by
        simp only [toOrdinal, toOrdinal_mk, hm, hdd, hyy]
      rw [hd0, ord_99991231] at hlt
      exact absurd hlt (by unfold maxOrdinal; omega)
    · have : days_in_month (d.year + 1) 1 = 31 := rfl
      omega

lemma iterate_nextDate (n : Nat) : ∀ (d : Date), d.valid →
    toOrdinal d + n ≤ maxOrdinal →
    (nextDate^[n] d).valid ∧ toOrdinal (nextDate^[n] d) = toOrdinal d + n := by
  induction n with
  | zero => intro d hv _; simpa using hv
  | succ k ih =>
    intro d hv hb
    have hlt : toOrdinal d < maxOrdinal := by omega
    have hv1 := valid_nextDate d hv hlt
    have ho1 := toOrdinal_nextDate d hv
    rw [Function.iterate_succ_apply]
    have := ih (nextDate d) hv1 (by omega)
    exact ⟨this.1, by omega⟩

lemma ord_le_of_year_le (d : Date) (h : d.valid) (hy : d.year ≤ 9998) :
    toOrdinal d ≤ 3651694 := by
  obtain ⟨y, m, dd⟩ := d
  obtain ⟨hy1, hy2, hm1, hm2, hd1, hd2⟩ := h
  dsimp only at *
  have h1 : daysBeforeMonth y m + days_in_month y m = daysBeforeMonth y (m + 1) :=
    (dbm_succ y m hm1).symm
  have h2 : daysBeforeMonth y (m + 1) ≤ daysBeforeMonth y 13 := dbm_mono y (by omega)
  have h3 := dbm13 y
  have h4 := dby_succ y hy1
  have h5 : daysBeforeYear (y + 1) ≤ daysBeforeYear 9999 := dby_mono (by omega)
  have h6 := dby_9999
  unfold toOrdinal
  dsimp only
  omega

lemma shiftMinutes_zero (t : PyDateTime) : shiftMinutes 0 t = t := by
  simp [shiftMinutes]

lemma specMonthlyLocalScan_zero (t : PyDateTime) (days : List Int) :
    specMonthlyLocalScan 0 t days =
      find_next_monthly_day t (if days = [] then [1] else days) := by
  unfold specMonthlyLocalScan
  rw [shiftMinutes_zero]
  cases h : find_next_monthly_day t (if days = [] then [1] else days) <;>
    simp [h, Except.map, shiftMinutes_zero]

lemma insort_ne_nil (x : Int) (l : List Int) : insort x l ≠ [] := by
  cases l <;> simp [insort] <;> split <;> simp

lemma sortInts_ne_nil (l : List Int) (h : l ≠ []) : sortInts l ≠ [] := by
  cases l with
  | nil => exact absurd rfl h
  | cons a t => simpa [sortInts] using insort_ne_nil a (sortInts t)

lemma filter_idem (p : Int → Bool) (l : List Int) :
    (l.filter p).filter p = l.filter p := by
  induction l with
  | nil => rfl
  | cons a t ih =>
    by_cases h : p a <;> simp [List.filter, h, ih]

lemma find_next_monthly_day_congr (t : PyDateTime) (d1 d2 : List Int)
    (h : validDaysOf d1 = validDaysOf d2) :
    find_next_monthly_day t d1 = find_next_monthly_day t d2 := by
  unfold find_next_monthly_day
  rw [h]

lemma validDaysOf_normalize (S : List Int) :
    validDaysOf (if S = [] then [1] else S) =
      validDaysOf (if S.filter (fun d => 1 ≤ d && d ≤ 31) = [] then [1]
                   else S.filter (fun d => 1 ≤ d && d ≤ 31)) := by
  by_cases hS : S = []
  · subst hS; simp
  · rw [if_neg hS]
    by_cases hF : S.filter (fun d => 1 ≤ d && d ≤ 31) = []
    · rw [if_pos hF]
      unfold validDaysOf
      rw [hF]
      simp [sortInts, insort]
    · rw [if_neg hF]
      unfold validDaysOf
      rw [filter_idem]

lemma toMinutes_mk (d : Date) (h mi : Nat) :
    toMinutes ⟨d, h, mi⟩ = toOrdinal d * 1440 + h * 60 + mi := rfl

lemma ord_le_of_year_le' (d : Date) (h : d.valid) (hy : d.year ≤ 9998) :
    toOrdinal d + 7 ≤ maxOrdinal := by
  have := ord_le_of_year_le d h hy
  unfold maxOrdinal
  omega

lemma fnwGo_step (t : PyDateTime) (S : List Int) (i k : Nat) :
    fnwGo t S i (k + 1) =
      match pyAddDate t.date i with
      | .error e => .error e
      | .ok cd =>
        if (weekday cd : Int) ∈ S then .ok ⟨cd, t.hour, t.minute⟩
        else fnwGo t S (i + 1) k := rfl

lemma exists_weekday_match (d : Date) (S : List Int) (hne : S ≠ [])
    (hb : ∀ x ∈ S, 0 ≤ x ∧ x ≤ 6) :
    ∃ j, 1 ≤ j ∧ j ≤ 7 ∧ (((toOrdinal d + j + 6) % 7 : Nat) : Int) ∈ S := by
  obtain ⟨s, hs⟩ := List.exists_mem_of_ne_nil S hne
  obtain ⟨h0, h6⟩ := hb s hs
  refine ⟨(s.toNat + 7 - (toOrdinal d + 6) % 7 - 1) % 7 + 1, by omega, by omega, ?_⟩
  have heq : (toOrdinal d + ((s.toNat + 7 - (toOrdinal d + 6) % 7 - 1) % 7 + 1) + 6) % 7
      = s.toNat := by omega
  rw [heq]
  have hcast : ((s.toNat : Nat) : Int) = s := by omega
  rw [hcast]
  exact hs

lemma fnwGo_ok (t : PyDateTime) (S : List Int) (hv : t.date.valid)
    (hb : toOrdinal t.date + 7 ≤ maxOrdinal) :
    ∀ rem i, i + rem = 8 → 1 ≤ i →
      (∃ j, i ≤ j ∧ j ≤ 7 ∧ (weekday (nextDate^[j] t.date) : Int) ∈ S) →
      ∃ j, i ≤ j ∧ j ≤ 7 ∧ (weekday (nextDate^[j] t.date) : Int) ∈ S ∧
        fnwGo t S i rem = .ok ⟨nextDate^[j] t.date, t.hour, t.minute⟩ := by
  intro rem
  induction rem with
  | zero =>
    intro i h8 h1 hex
    obtain ⟨j, hj1, hj2, _⟩ := hex
    omega
  | succ k ih =>
    intro i h8 h1 hex
    have hadd : pyAddDate t.date i = .ok (nextDate^[i] t.date) := by
      unfold pyAddDate
      rw [if_pos (by omega)]
    by_cases hmem : (weekday (nextDate^[i] t.date) : Int) ∈ S
    · refine ⟨i, le_refl i, by omega, hmem, ?_⟩
      rw [fnwGo_step, hadd]
      dsimp only
      rw [if_pos hmem]
    · obtain ⟨j, hj1, hj2, hjm⟩ := hex
      have hneq : j ≠ i := fun h => hmem (h ▸ hjm)
      obtain ⟨j', hj'1, hj'2, hj'm, hres⟩ :=
        ih (i + 1) (by omega) (by omega) ⟨j, by omega, hj2, hjm⟩
      refine ⟨j', by omega, hj'2, hj'm, ?_⟩
      rw [fnwGo_step, hadd]
      dsimp only
      rw [if_neg hmem]
      exact hres

lemma fnwGo_total (t : PyDateTime) (S : List Int)
    (hb : toOrdinal t.date + 7 ≤ maxOrdinal) :
    ∀ rem i, i + rem = 8 → ∃ r, fnwGo t S i rem = .ok r := by
  intro rem
  induction rem with
  | zero =>
    intro i h8
    refine ⟨⟨nextDate^[7] t.date, t.hour, t.minute⟩, ?_⟩
    show pyAddDays t 7 = _
    unfold pyAddDays pyAddDate
    rw [if_pos (by omega)]
    rfl
  | succ k ih =>
    intro i h8
    have hadd : pyAddDate t.date i = .ok (nextDate^[i] t.date) := by
      unfold pyAddDate
      rw [if_pos (by omega)]
    by_cases hmem : (weekday (nextDate^[i] t.date) : Int) ∈ S
    · exact ⟨⟨nextDate^[i] t.date, t.hour, t.minute⟩, by
        rw [fnwGo_step, hadd]; dsimp only; rw [if_pos hmem]⟩
    · obtain ⟨r, hr⟩ := ih (i + 1) (by omega)
      exact ⟨r, by rw [fnwGo_step, hadd]; dsimp only; rw [if_neg hmem]; exact hr⟩

lemma find_next_monthly_day_total (t : PyDateTime) (days : List Int)
    (hv : t.date.valid) (hy : t.date.year ≤ 9998) :
    ∃ r, find_next_monthly_day t days = .ok r := by
  obtain ⟨hy1, hy2, hm1, hm2, hd1, hd2⟩ := valid_parts t.date hv
  unfold find_next_monthly_day
  dsimp only
  cases h1 : scanCurrentMonth t (validDaysOf days) with
  | some r => exact ⟨r, rfl⟩
  | none =>
    cases h2 : scanNextMonth
        (if t.date.month + 1 > 12 then t.date.year + 1 else t.date.year)
        (if t.date.month + 1 > 12 then 1 else t.date.month + 1)
        t (validDaysOf days) with
    | some r => exact ⟨r, rfl⟩
    | none =>
      have hrep : tryReplace
          (if t.date.month + 1 > 12 then t.date.year + 1 else t.date.year)
          (if t.date.month + 1 > 12 then 1 else t.date.month + 1)
          1 t.hour t.minute =
          some ⟨⟨(if t.date.month + 1 > 12 then t.date.year + 1 else t.date.year),
                 (if t.date.month + 1 > 12 then 1 else t.date.month + 1), 1⟩,
                t.hour, t.minute⟩ := by
        unfold tryReplace
        rw [if_pos ?_]
        by_cases hm : t.date.month + 1 > 12
        · rw [if_pos hm, if_pos hm]
          exact ⟨by omega, by omega, by omega, by omega, by omega,
            dim_pos _ 1 (by omega) (by omega)⟩
        · rw [if_neg hm, if_neg hm]
          exact ⟨by omega, by omega, by omega, by omega, by omega,
            dim_pos _ _ (by omega) (by omega)⟩
      rw [hrep]
      exact ⟨_, rfl⟩

lemma take2Digits_eq_some {l : List Char} {n : Nat} {r : List Char}
    (h : take2Digits l = some (n, r)) :
    ∃ a b, l = a :: b :: r ∧ pyIsDigit a = true ∧ pyIsDigit b = true := by
  match l with
  | [] => simp [take2Digits] at h
  | [a] => simp [take2Digits] at h
  | a :: b :: rest =>
    simp only [take2Digits] at h
    split_ifs at h with hd
    · simp only [Option.some.injEq, Prod.mk.injEq] at h
      simp only [Bool.and_eq_true] at hd
      exact ⟨a, b, by rw [h.2], hd.1, hd.2⟩

lemma take4Digits_eq_some {l : List Char} {n : Nat} {r : List Char}
    (h : take4Digits l = some (n, r)) :
    ∃ a b c d, l = a :: b :: c :: d :: r ∧ pyIsDigit a = true ∧
      pyIsDigit b = true ∧ pyIsDigit c = true ∧ pyIsDigit d = true := by
  match l with
  | [] => simp [take4Digits] at h
  | [a] => simp [take4Digits] at h
  | [a, b] => simp [take4Digits] at h
  | [a, b, c] => simp [take4Digits] at h
  | a :: b :: c :: d :: rest =>
    simp only [take4Digits] at h
    split_ifs at h with hd
    · simp only [Option.some.injEq, Prod.mk.injEq] at h
      simp only [Bool.and_eq_true] at hd
      exact ⟨a, b, c, d, by rw [h.2], hd.1.1.1, hd.1.1.2, hd.1.2, hd.2⟩

lemma expectChar_eq_some {c : Char} {l r : List Char}
    (h : expectChar c l = some r) : l = c :: r := by
  match l with
  | [] => simp [expectChar] at h
  | a :: rest =>
    simp only [expectChar] at h
    split_ifs at h with ha
    · simp only [Option.some.injEq] at h
      rw [ha, h]

lemma drop_takeWhile_length (p : Char → Bool) (l : List Char) :
    l.drop (l.takeWhile p).length = l.dropWhile p := by
  induction l with
  | nil => rfl
  | cons a t ih =>
    by_cases h : p a <;> simp [List.takeWhile_cons, List.dropWhile_cons, h, ih]

lemma takeWs1_eq_some {l r : List Char} (h : takeWs1 l = some r) :
    ∃ ws, l = ws ++ r ∧ ws ≠ [] ∧ ∀ c ∈ ws, pyIsSpace c = true := by
  simp only [takeWs1] at h
  split_ifs at h with hw
  simp only [Option.some.injEq] at h
  refine ⟨l.takeWhile pyIsSpace, ?_, hw, fun c hc => List.mem_takeWhile_imp hc⟩
  rw [← h, drop_takeWhile_length, List.takeWhile_append_dropWhile]

lemma take2Digits_cons (a b : Char) (r : List Char)
    (ha : pyIsDigit a = true) (hb : pyIsDigit b = true) :
    take2Digits (a :: b :: r) = some (10 * digitVal a + digitVal b, r) := by
  simp [take2Digits, ha, hb]

lemma take4Digits_cons (a b c d : Char) (r : List Char)
    (ha : pyIsDigit a = true) (hb : pyIsDigit b = true)
    (hc : pyIsDigit c = true) (hd : pyIsDigit d = true) :
    take4Digits (a :: b :: c :: d :: r) =
      some (1000 * digitVal a + 100 * digitVal b + 10 * digitVal c + digitVal d, r) := by
  simp [take4Digits, ha, hb, hc, hd]

lemma expectChar_cons (c : Char) (r : List Char) :
    expectChar c (c :: r) = some r := by
  simp [expectChar]

lemma takeWhile_all_append (p : Char → Bool) :
    ∀ (ws : List Char) (h : Char) (t : List Char),
      (∀ c ∈ ws, p c = true) → p h = false →
      (ws ++ h :: t).takeWhile p = ws := by
  intro ws
  induction ws with
  | nil =>
    intro h t _ hh
    simp [List.takeWhile_cons, hh]
  | cons a ws ih =>
    intro h t hall hh
    have ha : p a = true := hall a (by simp)
    simp only [List.cons_append, List.takeWhile_cons, ha, if_true]
    rw [ih h t (fun c hc => hall c (by simp [hc])) hh]

lemma takeWs1_append (ws : List Char) (h : Char) (t : List Char)
    (hne : ws ≠ []) (hall : ∀ c ∈ ws, pyIsSpace c = true)
    (hh : pyIsSpace h = false) :
    takeWs1 (ws ++ h :: t) = some (h :: t) := by
  unfold takeWs1
  rw [takeWhile_all_append pyIsSpace ws h t hall hh, if_neg hne, List.drop_left]

lemma digit_not_space (c : Char) (h : pyIsDigit c = true) :
    pyIsSpace c = false := by
  unfold pyIsDigit at h
  simp only [Bool.and_eq_true, decide_eq_true_eq] at h
  have ne48 : ∀ (x : Char), x.toNat < 48 → (c == x) = false := by
    intro x hx
    simp only [beq_eq_false_iff_ne, ne_eq]
    intro he
    subst he
    omega
  unfold pyIsSpace
  rw [ne48 (' ') (by decide), ne48 ('\t') (by decide), ne48 ('\n') (by decide),
    ne48 ('\r') (by decide), ne48 (Char.ofNat 11) (by decide),
    ne48 (Char.ofNat 12) (by decide)]
  rfl

lemma pyMatch_some_shape {l : List Char} {g : Nat × Nat × Nat × Nat × Nat}
    (h : pyMatch l = some g) : DateTimePrefixShape l := by
  unfold pyMatch at h
  cases e1 : take2Digits l with
  | none => simp [e1] at h
  | some p1 =>
  obtain ⟨d, r1⟩ := p1
  simp only [e1] at h
  cases e2 : expectChar '.' r1 with
  | none => simp [e2] at h
  | some r2 =>
  simp only [e2] at h
  cases e3 : take2Digits r2 with
  | none => simp [e3] at h
  | some p3 =>
  obtain ⟨m, r3⟩ := p3
  simp only [e3] at h
  cases e4 : expectChar '.' r3 with
  | none => simp [e4] at h
  | some r4 =>
  simp only [e4] at h
  cases e5 : take4Digits r4 with
  | none => simp [e5] at h
  | some p5 =>
  obtain ⟨y, r5⟩ := p5
  simp only [e5] at h
  cases e6 : takeWs1 r5 with
  | none => simp [e6] at h
  | some r6 =>
  simp only [e6] at h
  cases e7 : take2Digits r6 with
  | none => simp [e7] at h
  | some p7 =>
  obtain ⟨hh, r7⟩ := p7
  simp only [e7] at h
  cases e8 : expectChar ':' r7 with
  | none => simp [e8] at h
  | some r8 =>
  simp only [e8] at h
  cases e9 : take2Digits r8 with
  | none => simp [e9] at h
  | some p9 =>
  obtain ⟨mi, r9⟩ := p9
  obtain ⟨d1, d2, hl, hd1, hd2⟩ := take2Digits_eq_some e1
  have hr1 := expectChar_eq_some e2
  obtain ⟨m1, m2, hr2, hm1, hm2⟩ := take2Digits_eq_some e3
  have hr3 := expectChar_eq_some e4
  obtain ⟨y1, y2, y3, y4, hr4, hy1, hy2, hy3, hy4⟩ := take4Digits_eq_some e5
  obtain ⟨ws, hr5, hwne, hwall⟩ := takeWs1_eq_some e6
  obtain ⟨h1, h2, hr6, hh1, hh2⟩ := take2Digits_eq_some e7
  have hr7 := expectChar_eq_some e8
  obtain ⟨mi1, mi2, hr8, hmi1, hmi2⟩ := take2Digits_eq_some e9
  refine ⟨d1, d2, m1, m2, y1, y2, y3, y4, h1, h2, mi1, mi2, ws, r9, ?_, ?_, hwne, hwall⟩
  · rw [hl, hr1, hr2, hr3, hr4, hr5, hr6, hr7, hr8]
    simp
  · intro c hc
    simp only [List.mem_cons, List.not_mem_nil, or_false] at hc
    rcases hc with rfl | rfl | rfl | rfl | rfl | rfl | rfl | rfl | rfl | rfl | rfl | rfl <;>
      assumption

lemma shape_pyMatch_some {l : List Char} (h : DateTimePrefixShape l) :
    ∃ g, pyMatch l = some g := by
  obtain ⟨d1, d2, m1, m2, y1, y2, y3, y4, h1, h2, mi1, mi2, ws, rest,
    heq, hdig, hwne, hws⟩ := h
  have hd1 : pyIsDigit d1 = true := hdig d1 (by simp)
  have hd2 : pyIsDigit d2 = true := hdig d2 (by simp)
  have hm1 : pyIsDigit m1 = true := hdig m1 (by simp)
  have hm2 : pyIsDigit m2 = true := hdig m2 (by simp)
  have hy1 : pyIsDigit y1 = true := hdig y1 (by simp)
  have hy2 : pyIsDigit y2 = true := hdig y2 (by simp)
  have hy3 : pyIsDigit y3 = true := hdig y3 (by simp)
  have hy4 : pyIsDigit y4 = true := hdig y4 (by simp)
  have hh1 : pyIsDigit h1 = true := hdig h1 (by simp)
  have hh2 : pyIsDigit h2 = true := hdig h2 (by simp)
  have hmi1 : pyIsDigit mi1 = true := hdig mi1 (by simp)
  have hmi2 : pyIsDigit mi2 = true := hdig mi2 (by simp)
  subst heq
  have e1 := take2Digits_cons d1 d2
    ('.' :: m1 :: m2 :: '.' :: y1 :: y2 :: y3 :: y4 ::
      (ws ++ h1 :: h2 :: ':' :: mi1 :: mi2 :: rest)) hd1 hd2
  have e2 := expectChar_cons '.'
    (m1 :: m2 :: '.' :: y1 :: y2 :: y3 :: y4 ::
      (ws ++ h1 :: h2 :: ':' :: mi1 :: mi2 :: rest))
  have e3 := take2Digits_cons m1 m2
    ('.' :: y1 :: y2 :: y3 :: y4 :: (ws ++ h1 :: h2 :: ':' :: mi1 :: mi2 :: rest))
    hm1 hm2
  have e4 := expectChar_cons '.'
    (y1 :: y2 :: y3 :: y4 :: (ws ++ h1 :: h2 :: ':' :: mi1 :: mi2 :: rest))
  have e5 := take4Digits_cons y1 y2 y3 y4
    (ws ++ h1 :: h2 :: ':' :: mi1 :: mi2 :: rest) hy1 hy2 hy3 hy4
  have e6 := takeWs1_append ws h1 (h2 :: ':' :: mi1 :: mi2 :: rest) hwne hws
    (digit_not_space h1 hh1)
  have e7 := take2Digits_cons h1 h2 (':' :: mi1 :: mi2 :: rest) hh1 hh2
  have e8 := expectChar_cons ':' (mi1 :: mi2 :: rest)
  have e9 := take2Digits_cons mi1 mi2 rest hmi1 hmi2
  refine ⟨(10 * digitVal d1 + digitVal d2,
           10 * digitVal m1 + digitVal m2,
           1000 * digitVal y1 + 100 * digitVal y2 + 10 * digitVal y3 + digitVal y4,
           10 * digitVal h1 + digitVal h2,
           10 * digitVal mi1 + digitVal mi2), ?_⟩
  unfold pyMatch
  simp only [List.cons_append, List.nil_append, List.append_assoc]
    at e1 e2 e3 e4 e5 e6 e7 e8 e9 ⊢
  simp only [e1, e2, e3, e4, e5, e6, e7, e8, e9]

lemma parse_format_of_none (offs : Int) (s : List Char)
    (hm : pyMatch (pyStrip s) = none) :
    parse_user_datetime offs s = .error .format := by
  unfold parse_user_datetime
  rw [hm]

lemma parse_ne_format_of_some (offs : Int) (s : List Char)
    (d m y h mi : Nat) (hm : pyMatch (pyStrip s) = some (d, m, y, h, mi)) :
    parse_user_datetime offs s ≠ .error .format := by
  unfold parse_user_datetime
  rw [hm]
  dsimp only
  split_ifs with hv
  · simp
  · simp

/- ------------------------------------------------------------------ -/
/- Claim theorems -/
/- ------------------------------------------------------------------ -/

set_option maxRecDepth 8000 in
/-- C1 counterexample: for a monthly rule with monthlyDays = [31] and
    lastFiredUtc = 2024-01-31T10:00, the code does not return
    2024-03-31T10:00: it returns 2024-02-01T10:00 (the fallback to the 1st
    of the next month), so February is not skipped. -/
theorem c1_counterexample :
    next_recurrence_time ⟨⟨2024, 1, 1⟩, 0, 0⟩ "monthly" ⟨⟨2024, 1, 31⟩, 10, 0⟩ [] [31]
        = .ok (some ⟨⟨2024, 2, 1⟩, 10, 0⟩)
    ∧ (some (⟨⟨2024, 2, 1⟩, 10, 0⟩ : PyDateTime)) ≠ some ⟨⟨2024, 3, 31⟩, 10, 0⟩ :=
  ⟨by rfl, by decide⟩

set_option maxRecDepth 8000 in
/-- C1 (amended): for a monthly rule with monthlyDays = [31] and
    lastFiredUtc = 2024-01-31T10:00 (configured local zone UTC),
    nextOccurrence returns 2024-02-01T10:00: no day of the set forms a valid
    date in February, so the code falls back to the 1st of the next month
    rather than skipping February. -/
theorem c1_amended :
    next_recurrence_time ⟨⟨2024, 1, 1⟩, 0, 0⟩ "monthly" ⟨⟨2024, 1, 31⟩, 10, 0⟩ [] [31]
      = .ok (some ⟨⟨2024, 2, 1⟩, 10, 0⟩) := by rfl

set_option maxRecDepth 8000 in
/-- C3 counterexample: the monthly scan is not performed in the configured
    local zone.  For offset +180 minutes (UTC+3) and
    lastFiredUtc = 2024-01-15T22:00 (local day 16, a calendar day later than
    the UTC day 15), the code returns 2024-01-16T22:00 — exactly the direct
    UTC scan — while the spec's convert-scan-convert pipeline would return
    2024-02-15T22:00; the two differ. -/
theorem c3_counterexample :
    next_recurrence_time ⟨⟨2024, 1, 1⟩, 0, 0⟩ "monthly" ⟨⟨2024, 1, 15⟩, 22, 0⟩ [] [16]
        = .ok (some ⟨⟨2024, 1, 16⟩, 22, 0⟩)
    ∧ specMonthlyLocalScan 180 ⟨⟨2024, 1, 15⟩, 22, 0⟩ [16] = .ok ⟨⟨2024, 2, 15⟩, 22, 0⟩
    ∧ (shiftMinutes 180 ⟨⟨2024, 1, 15⟩, 22, 0⟩).date ≠ (⟨⟨2024, 1, 15⟩, 22, 0⟩ : PyDateTime).date
    ∧ (⟨⟨2024, 1, 16⟩, 22, 0⟩ : PyDateTime) ≠ ⟨⟨2024, 2, 15⟩, 22, 0⟩ :=
  ⟨by rfl, by rfl, by decide, by decide⟩

/-- C3 (amended): for every monthly rule and every lastFiredUtc,
    next_recurrence_time performs the ascending day scan directly on the
    given (UTC) value with no timezone conversion at all; it coincides with
    the spec's convert-to-local, scan, convert-back pipeline exactly when
    that pipeline is instantiated with UTC offset zero. -/
theorem c3_amended (o t : PyDateTime) (w days : List Int) :
    next_recurrence_time o "monthly" t w days =
      (specMonthlyLocalScan 0 t days).map some := by
  rw [specMonthlyLocalScan_zero]
  rfl

/-- C8: for a monthly rule, day values outside 1..31 are discarded and an
    empty (or emptied) day list is treated as [1]: next_recurrence_time on a
    monthly rule with day list S equals next_recurrence_time on the filtered
    list, or on [1] when the filter empties it. -/
theorem c8_filter_default (o last : PyDateTime) (w S : List Int) :
    next_recurrence_time o "monthly" last w S =
      next_recurrence_time o "monthly" last w
        (if S.filter (fun d => 1 ≤ d && d ≤ 31) = [] then [1]
         else S.filter (fun d => 1 ≤ d && d ≤ 31)) := by
  have hX : (if S.filter (fun d => 1 ≤ d && d ≤ 31) = [] then [1]
      else S.filter (fun d => 1 ≤ d && d ≤ 31)) ≠ [] := by
    by_cases hF : S.filter (fun d => 1 ≤ d && d ≤ 31) = []
    · rw [if_pos hF]; simp
    · rw [if_neg hF]; exact hF
  have l1 : next_recurrence_time o "monthly" last w S =
      (find_next_monthly_day last (if S = [] then [1] else S)).map some := rfl
  have l2 : next_recurrence_time o "monthly" last w
        (if S.filter (fun d => 1 ≤ d && d ≤ 31) = [] then [1]
         else S.filter (fun d => 1 ≤ d && d ≤ 31)) =
      (find_next_monthly_day last
        (if (if S.filter (fun d => 1 ≤ d && d ≤ 31) = [] then [1]
             else S.filter (fun d => 1 ≤ d && d ≤ 31)) = [] then [1]
         else (if S.filter (fun d => 1 ≤ d && d ≤ 31) = [] then [1]
               else S.filter (fun d => 1 ≤ d && d ≤ 31)))).map some := rfl
  rw [l1, l2, if_neg hX,
    find_next_monthly_day_congr last _ _ (validDaysOf_normalize S)]

/-- C9: the result of next_recurrence_time does not depend on its first
    parameter `original`: for any two values of it and the same remaining
    arguments the results are equal. -/
theorem c9_original_irrelevant (o1 o2 : PyDateTime) (k : String)
    (last : PyDateTime) (w m : List Int) :
    next_recurrence_time o1 k last w m = next_recurrence_time o2 k last w m := rfl

set_option maxRecDepth 8000 in
/-- C6 counterexample: at the upper end of Python's datetime range the
    weekly scan raises OverflowError instead of returning a timestamp:
    for t = 9999-12-31T10:00 and S = [0] the first candidate date already
    overflows date.max, so no "strictly after t" result exists. -/
theorem c6_counterexample :
    next_recurrence_time ⟨⟨2024, 1, 1⟩, 0, 0⟩ "weekly" ⟨⟨9999, 12, 31⟩, 10, 0⟩ [0] []
      = .error () := by rfl

/-- C6 (amended): for every valid UTC timestamp t whose date lies at least
    7 days below date.max, and every non-empty set S of weekday ordinals in
    0..6 (Monday = 0), nextOccurrence({weekly, S}, t) returns a timestamp
    strictly after t, at most 7 days after t, falling on a weekday in S,
    with the same time of day as t. -/
theorem c6_amended (o t : PyDateTime) (S : List Int)
    (hv : t.date.valid) (hb : toOrdinal t.date + 7 ≤ maxOrdinal)
    (hne : S ≠ []) (hS : ∀ x ∈ S, 0 ≤ x ∧ x ≤ 6) :
    ∃ r, next_recurrence_time o "weekly" t S [] = .ok (some r) ∧
      toMinutes t < toMinutes r ∧
      toMinutes r ≤ toMinutes t + 7 * 1440 ∧
      (weekday r.date : Int) ∈ S ∧
      r.hour = t.hour ∧ r.minute = t.minute := by
  obtain ⟨j, hj1, hj7, hjm⟩ := exists_weekday_match t.date S hne hS
  have hit := iterate_nextDate j t.date hv (by omega)
  have hwd : (weekday (nextDate^[j] t.date) : Int) ∈ S := by
    unfold weekday
    rw [hit.2]
    exact hjm
  obtain ⟨j', hj'1, hj'7, hj'm, hres⟩ :=
    fnwGo_ok t S hv hb 7 1 (by omega) (by omega) ⟨j, by omega, hj7, hwd⟩
  have hit' := iterate_nextDate j' t.date hv (by omega)
  refine ⟨⟨nextDate^[j'] t.date, t.hour, t.minute⟩, ?_, ?_, ?_, hj'm, rfl, rfl⟩
  · have e : next_recurrence_time o "weekly" t S [] =
        (find_next_weekday t (if S = [] then [0] else S)).map some := rfl
    rw [e, if_neg hne]
    show (fnwGo t S 1 7).map some = _
    rw [hres]
    rfl
  · simp only [toMinutes_mk, toMinutes]
    have h2 := hit'.2
    omega
  · simp only [toMinutes_mk, toMinutes]
    have h2 := hit'.2
    omega

/-- C6 witness: the amended weekly property at the concrete input
    t = 2024-01-15T10:30 (a Monday) and S = [3]; the result is the
    following Thursday 2024-01-18T10:30. -/
theorem c6_witness :
    ∃ r, next_recurrence_time ⟨⟨2024, 1, 1⟩, 0, 0⟩ "weekly"
        ⟨⟨2024, 1, 15⟩, 10, 30⟩ [3] [] = .ok (some r) ∧
      toMinutes ⟨⟨2024, 1, 15⟩, 10, 30⟩ < toMinutes r ∧
      toMinutes r ≤ toMinutes ⟨⟨2024, 1, 15⟩, 10, 30⟩ + 7 * 1440 ∧
      (weekday r.date : Int) ∈ [3] ∧
      r.hour = 10 ∧ r.minute = 30 :=
  c6_amended ⟨⟨2024, 1, 1⟩, 0, 0⟩ ⟨⟨2024, 1, 15⟩, 10, 30⟩ [3]
    (by decide) (by decide) (by decide) (by decide)

set_option maxRecDepth 8000 in
/-- C7 counterexample: next_recurrence_time is not total at the upper end
    of the datetime range: for a monthly rule fired at 9999-12-15T10:00 the
    next-month computation lands in year 10000 and the final fallback
    replace(year, month, day = 1) raises an uncaught ValueError. -/
theorem c7_counterexample :
    next_recurrence_time ⟨⟨2024, 1, 1⟩, 0, 0⟩ "monthly" ⟨⟨9999, 12, 15⟩, 10, 0⟩ [] []
      = .error () := by rfl

/-- C7 (amended): for every recurrence kind (including unrecognized ones),
    every valid lastFiredUtc whose year is at most 9998, and every weekly
    and monthly day list (including out-of-range values),
    next_recurrence_time terminates without an exception, returning a
    timestamp or the None termination value. -/
theorem c7_amended (o : PyDateTime) (k : String) (last : PyDateTime)
    (w m : List Int) (hv : last.date.valid) (hy : last.date.year ≤ 9998) :
    ∃ v, next_recurrence_time o k last w m = .ok v := by
  have hord := ord_le_of_year_le' last.date hv hy
  by_cases h1 : k = "once"
  · subst h1
    exact ⟨none, rfl⟩
  by_cases h2 : k = "daily"
  · subst h2
    have e : next_recurrence_time o "daily" last w m = (pyAddDays last 1).map some := rfl
    have hadd : pyAddDays last 1 = .ok ⟨nextDate^[1] last.date, last.hour, last.minute⟩ := by
      unfold pyAddDays pyAddDate
      rw [if_pos (by omega)]
      rfl
    exact ⟨some ⟨nextDate^[1] last.date, last.hour, last.minute⟩, by rw [e, hadd]; rfl⟩
  by_cases h3 : k = "weekly"
  · subst h3
    have e : next_recurrence_time o "weekly" last w m =
        (find_next_weekday last (if w = [] then [0] else w)).map some := rfl
    obtain ⟨r, hr⟩ := fnwGo_total last (if w = [] then [0] else w) hord 7 1 (by omega)
    refine ⟨some r, ?_⟩
    rw [e]
    show (fnwGo last (if w = [] then [0] else w) 1 7).map some = _
    rw [hr]
    rfl
  by_cases h4 : k = "monthly"
  · subst h4
    have e : next_recurrence_time o "monthly" last w m =
        (find_next_monthly_day last (if m = [] then [1] else m)).map some := rfl
    obtain ⟨r, hr⟩ := find_next_monthly_day_total last (if m = [] then [1] else m) hv hy
    refine ⟨some r, ?_⟩
    rw [e, hr]
    rfl
  · refine ⟨none, ?_⟩
    unfold next_recurrence_time
    rw [if_neg h1, if_neg h2, if_neg h3, if_neg h4]

/-- C7 witness: the amended totality property at a concrete input with an
    out-of-range monthly day list. -/
theorem c7_witness :
    ∃ v, next_recurrence_time ⟨⟨2024, 1, 1⟩, 0, 0⟩ "monthly"
        ⟨⟨2024, 1, 31⟩, 10, 0⟩ [9] [40] = .ok v :=
  c7_amended ⟨⟨2024, 1, 1⟩, 0, 0⟩ "monthly" ⟨⟨2024, 1, 31⟩, 10, 0⟩ [9] [40]
    (by decide) (by decide)

set_option maxRecDepth 8000 in
/-- C4 counterexample: the code uses re.match, an anchored prefix match, so
    "15.03.2024  09:30x" — with two spaces between date and time and a
    trailing character after the minute — parses successfully instead of
    being rejected with FormatError. -/
theorem c4_counterexample :
    parse_user_datetime 0 ("15.03.2024  09:30x").data
      = .ok (⟨⟨2024, 3, 15⟩, 9, 30⟩, ⟨⟨2024, 3, 15⟩, 9, 30⟩) := by rfl

/-- C4 (amended): parse_user_datetime fails with FormatError exactly when
    the input, after stripping surrounding whitespace, does not BEGIN with
    two-digit day '.' two-digit month '.' four-digit year, one or more
    whitespace characters, two-digit hour ':' two-digit minute; trailing
    characters after the minute and multiple whitespace separators are
    accepted. -/
theorem c4_amended (offs : Int) (s : List Char) :
    parse_user_datetime offs s = .error .format ↔
      ¬ DateTimePrefixShape (pyStrip s) := by
  constructor
  · intro hf hshape
    obtain ⟨g, hg⟩ := shape_pyMatch_some hshape
    obtain ⟨d, m, y, h, mi⟩ := g
    exact parse_ne_format_of_some offs s d m y h mi hg hf
  · intro hn
    cases hm : pyMatch (pyStrip s) with
    | none => exact parse_format_of_none offs s hm
    | some g => exact absurd (pyMatch_some_shape hm) hn

set_option maxRecDepth 16000 in
/-- C2: evaluating escape_markdown_v2 at the claim's example input shows
    the restore step never finds its placeholders (their underscores were
    escaped by the escaping pass, and the italic pass also corrupted the
    bold placeholder), so the output leaks escaped ITALIC placeholder text
    and loses the markup, instead of keeping *world* and _this_ verbatim
    with only the trailing '!' escaped. -/
theorem c2_marker_leak :
    escape_markdown_v2 (("Hello *world* and _this_!").data) =
      ("Hello \\_\\_\\_ITALIC0\\_\\_\\_\\_ITALIC1\\_\\_this\\_\\!").data ∧
    escape_markdown_v2 (("Hello *world* and _this_!").data) ≠
      ("Hello *world* and _this_\\!").data :=
  ⟨by decide, by decide⟩

/-- C5: the fingerprint of a task record equals the lowercase-hex MD5
    digest of the UTF-8 encoding of the pipe-delimited string
    chatId|text|photoRef|documentRef|publishAt|recurrenceKind (empty string
    for absent optional fields), and replacing the record's weekly and
    monthly day sets by any other values never changes the digest. -/
theorem c5_fingerprint (r : ScheduledTask) (w m : List Int) :
    taskFingerprint r = md5Hex (utf8Bytes (pipeString r)) ∧
    taskFingerprint ⟨r.chat_id, r.text, r.photo_file_id, r.document_file_id,
        r.publish_at, r.recurrence, w, m⟩ = taskFingerprint r :=
  ⟨rfl, rfl⟩

set_option maxRecDepth 16000 in
/-- C10 counterexample: the claim's example pair (text = "a|b" with
    photoRef absent, versus text = "a" with photoRef = "b") does NOT have
    identical concatenated strings — they are "1|a|b|||p|r" and
    "1|a|b||p|r" — and its fingerprints differ. -/
theorem c10_counterexample :
    pipeString ⟨1, some ("a|b"), none, none, ("p"), ("r"), [], []⟩ ≠
      pipeString ⟨1, some ("a"), some ("b"), none, ("p"), ("r"), [], []⟩ ∧
    taskFingerprint ⟨1, some ("a|b"), none, none, ("p"), ("r"), [], []⟩ ≠
      taskFingerprint ⟨1, some ("a"), some ("b"), none, ("p"), ("r"), [], []⟩ :=
  ⟨by decide, by decide⟩

set_option maxRecDepth 16000 in
/-- C10 (amended): the pipe-delimited encoding is indeed not injective when
    string fields contain '|', witnessed by text = "a|b" with photoRef = "c"
    versus text = "a" with photoRef = "b|c": the two records differ
    field-by-field yet their concatenated strings (both "1|a|b|c||p|r") and
    hence their fingerprints are exactly equal. -/
theorem c10_amended :
    pipeString ⟨1, some ("a|b"), some ("c"), none, ("p"), ("r"), [], []⟩ =
      pipeString ⟨1, some ("a"), some ("b|c"), none, ("p"), ("r"), [], []⟩ ∧
    taskFingerprint ⟨1, some ("a|b"), some ("c"), none, ("p"), ("r"), [], []⟩ =
      taskFingerprint ⟨1, some ("a"), some ("b|c"), none, ("p"), ("r"), [], []⟩ ∧
    (some ("a|b") : Option String) ≠ some ("a") := by
  refine ⟨by decide, ?_, by decide⟩
  show md5Hex (utf8Bytes
      (pipeString ⟨1, some ("a|b"), some ("c"), none, ("p"), ("r"), [], []⟩)) =
    md5Hex (utf8Bytes
      (pipeString ⟨1, some ("a"), some ("b|c"), none, ("p"), ("r"), [], []⟩))
  exact congrArg (fun s => md5Hex (utf8Bytes s)) (by decide)

